import Mathlib

/-!
Verification development for the Swedish nameday service.

The definitions below are a shallow embedding of the two source files:

* `fetch.py` — the scrape-to-structured-data extractor `parse_tables`,
  together with its static data (`MONTH_MAP`, `EMPTY_DATES`,
  `DATES_WITH_JUNK`) and the string helpers it relies on
  (`str.lower`, `str.split`, `str.strip`, `str.replace`, `int(...)`,
  the format `{...:02d}`, and `re.sub` with the pattern that removes a
  parenthesized group together with the whitespace before it).
  The markup is embedded at the level BeautifulSoup delivers it to the
  row loop: a list of candidate tables, each a list of rows, each row
  the list of its cell texts.  A Python `dict` is embedded as an
  insertion-ordered association list with update-in-place assignment.
  The `ValueError` that `int(day)` can raise is embedded with `Except`.
  Integer parsing is embedded for ASCII digit strings with an optional
  sign, the fragment of `int` the page's day tokens exercise.

* `main.py` — the `refresh_namedays` endpoint (API-key check, extraction,
  empty-result guard, storage write, in-memory swap) and the `get_date`
  endpoint (range checks and the `datetime(2000, month, day)` validity
  probe; the year 2000 is a leap year, so February 29 is constructible).
-/

/-- Whitespace as recognized by Python `str.split` / `str.strip` /
regex `\s` for the ASCII range: space, tab, newline, carriage return,
vertical tab, form feed. -/
def isSpaceCh (c : Char) : Bool :=
  c = ' ' || c = '\t' || c = '\n' || c = '\r' || c = Char.ofNat 11 || c = Char.ofNat 12

/-- Python `str.lower` (ASCII range), as used on the date cell. -/
def pyLower (s : String) : String :=
  String.mk (s.toList.map Char.toLower)

/-- Worker for `splitWS`: accumulates the current word (reversed). -/
def splitWSGo : List Char → List Char → List String
  | [], acc => if acc = [] then [] else [String.mk acc.reverse]
  | c :: rest, acc =>
    if isSpaceCh c then
      if acc = [] then splitWSGo rest [] else String.mk acc.reverse :: splitWSGo rest []
    else
      splitWSGo rest (c :: acc)

/-- Python `str.split()` with no argument: split on runs of whitespace,
dropping empty fragments. -/
def splitWS (s : String) : List String :=
  splitWSGo s.toList []

/-- Digit-string accumulator for `pyInt`. -/
def parseDigitsGo : Nat → List Char → Option Nat
  | acc, [] => some acc
  | acc, c :: r => if c.isDigit then parseDigitsGo (10 * acc + (c.toNat - 48)) r else none

/-- A nonempty all-digit character list, or nothing. -/
def parseDigits (l : List Char) : Option Nat :=
  if l = [] then none else parseDigitsGo 0 l

/-- Python `int(s)` on a whitespace-free token: an optional sign followed
by a nonempty run of ASCII digits; anything else raises `ValueError`
(embedded as `none`). -/
def pyInt (s : String) : Option Int :=
  match s.toList with
  | '+' :: r => (parseDigits r).map Int.ofNat
  | '-' :: r => (parseDigits r).map (fun n => -(Int.ofNat n : Int))
  | l => (parseDigits l).map Int.ofNat

/-- Python format `f"{d:02d}"`: decimal rendering left-padded with zeros
to width two (a sign counts toward the width). -/
def intFormat02 (d : Int) : String :=
  if 0 ≤ d ∧ d < 10 then "0" ++ toString d else toString d

/-- Python `s.replace(" och ", ",")`: replace each non-overlapping
occurrence, scanning left to right and resuming after a replacement. -/
def replaceOchL : List Char → List Char
  | ' ' :: 'o' :: 'c' :: 'h' :: ' ' :: rest => ',' :: replaceOchL rest
  | c :: rest => c :: replaceOchL rest
  | [] => []

/-- Python `s.split(",")`: split at every comma, keeping empty fragments;
the result is always nonempty. -/
def splitCommaL : List Char → List (List Char)
  | [] => [[]]
  | c :: rest =>
    if c = ',' then [] :: splitCommaL rest
    else
      match splitCommaL rest with
      | w :: ws => (c :: w) :: ws
      | [] => [[c]]

/-- Python `str.strip()`: drop whitespace from both ends. -/
def pyStripL (l : List Char) : List Char :=
  ((l.dropWhile isSpaceCh).reverse.dropWhile isSpaceCh).reverse

/-- Scan to the first closing parenthesis and return what follows it
(the regex fragment `[^)]*\)`). -/
def afterClose : List Char → Option (List Char)
  | [] => none
  | c :: r => if c = ')' then some r else afterClose r

/-- Match the regex `\s*\([^)]*\)` at the head of the list; on success
return the remainder after the match. -/
def matchWsParen (l : List Char) : Option (List Char) :=
  match l.dropWhile isSpaceCh with
  | '(' :: rest => afterClose rest
  | _ => none

/-- Fuelled scan of `re.sub(r"\s*\([^)]*\)", "", ·)`: at each position
remove a match if one starts there, otherwise keep the character. -/
def reSubGo : Nat → List Char → List Char
  | 0, l => l
  | _ + 1, [] => []
  | fuel + 1, c :: rest =>
    match matchWsParen (c :: rest) with
    | some rem => reSubGo fuel rem
    | none => c :: reSubGo fuel rest

/-- Python `re.sub(r"\s*\([^)]*\)", "", s)` on the character list of a
name fragment (each match consumes at least two characters, so the
length of the input is enough fuel). -/
def reSubParen (l : List Char) : List Char :=
  reSubGo l.length l

/-- Whether a character list contains an opening parenthesis with some
closing parenthesis anywhere after it — i.e. a parenthesized substring. -/
def hasParenPair : List Char → Bool
  | [] => false
  | c :: rest => (decide (c = '(') && decide (')' ∈ rest)) || hasParenPair rest

/-- `hasParenPair` on a string. -/
def hasParenPairS (s : String) : Bool :=
  hasParenPair s.toList

/-! ## Static data of `fetch.py` -/

/-- `MONTH_MAP` from `fetch.py`: Swedish month name (lowercase) to its
two-digit code. -/
def MONTH_MAP : List (String × String) :=
  [("januari", "01"), ("februari", "02"), ("mars", "03"), ("april", "04"),
   ("maj", "05"), ("juni", "06"), ("juli", "07"), ("augusti", "08"),
   ("september", "09"), ("oktober", "10"), ("november", "11"), ("december", "12")]

/-- `EMPTY_DATES` from `fetch.py`: keys whose name list is forced empty. -/
def EMPTY_DATES : List String :=
  ["01-01", "02-02", "02-29", "03-25", "06-24", "11-01", "12-25"]

/-- `DATES_WITH_JUNK` from `fetch.py`: keys whose names carry
parenthetical annotations that must be stripped. -/
def DATES_WITH_JUNK : List String :=
  ["04-30", "05-01", "12-24", "12-26", "12-28"]

/-- First-match association-list lookup (Python `dict.get`: keys here
are distinct, so first match agrees with the hash map). -/
def alookup {α : Type} : List (String × α) → String → Option α
  | [], _ => none
  | (k', v) :: rest, k => if k' = k then some v else alookup rest k

/-- The output mapping: a Python `dict` from date key to name list,
embedded as an insertion-ordered association list. -/
abbrev Table := List (String × List String)

/-- A table row, as the list of its cell texts. -/
abbrev Row := List String

/-- Python `dict` assignment `m[k] = v`: update the existing entry in
place, or append a new one. -/
def upsert : Table → String → List String → Table
  | [], k, v => [(k, v)]
  | (k', v') :: rest, k, v =>
    if k' = k then (k, v) :: rest else (k', v') :: upsert rest k v

/-- Lookup in the output mapping. -/
def lookupA : Table → String → Option (List String)
  | [], _ => none
  | (k', v) :: rest, k => if k' = k then some v else lookupA rest k

/-! ## Name-list construction (`fetch.py`, lines 87–102) -/

/-- The default path: `[n.strip() for n in names_part.replace(" och ", ",").split(",") if n.strip()]`. -/
def defaultNames (s : String) : List String :=
  ((splitCommaL (replaceOchL s.toList)).map (fun w => String.mk (pyStripL w))).filter
    (fun n => n ≠ "")

/-- The strip-annotations path: like `defaultNames` but each fragment
first passes through `re.sub(r"\s*\([^)]*\)", "", ·)`. -/
def junkNames (s : String) : List String :=
  ((splitCommaL (replaceOchL s.toList)).map (fun w => String.mk (pyStripL (reSubParen w)))).filter
    (fun n => n ≠ "")

/-! ## The extractor `parse_tables` -/

/-- The exception `int(day)` can raise. -/
inductive PyError
  | valueError
deriving DecidableEq, Repr

instance {ε α : Type} [DecidableEq ε] [DecidableEq α] : DecidableEq (Except ε α) := fun x y =>
  match x, y with
  | .ok a, .ok b =>
    if h : a = b then .isTrue (congrArg Except.ok h)
    else .isFalse (fun hh => h (Except.ok.inj hh))
  | .error a, .error b =>
    if h : a = b then .isTrue (congrArg Except.error h)
    else .isFalse (fun hh => h (Except.error.inj hh))
  | .ok _, .error _ => .isFalse (fun hh => Except.noConfusion hh)
  | .error _, .ok _ => .isFalse (fun hh => Except.noConfusion hh)

/-- Override dispatch (`fetch.py`, lines 82–102): forced-empty keys
first, then annotation stripping, then the default split. -/
def recordNames (result : Table) (key : String) (names_part : String) : Table :=
  if EMPTY_DATES.contains key then upsert result key []
  else if DATES_WITH_JUNK.contains key then upsert result key (junkNames names_part)
  else upsert result key (defaultNames names_part)

/-- Date-cell interpretation (`fetch.py`, lines 70–102): exactly two
whitespace tokens, month lookup, `int` on the day token (which raises
on a non-numeric token), key composition, then `recordNames`. -/
def processDate (result : Table) (parts : List String) (names_part : String) :
    Except PyError Table :=
  match parts with
  | [day, month_sv] =>
    match alookup MONTH_MAP month_sv with
    | none => .ok result
    | some month =>
      match pyInt day with
      | none => .error .valueError
      | some d => .ok (recordNames result (month ++ "-" ++ intFormat02 d) names_part)
  | _ => .ok result

/-- One row (`fetch.py`, lines 62–102): fewer than two cells is skipped;
cell 0 is the date cell (lowercased), cell 1 the names cell, further
cells are ignored. -/
def processRow (result : Table) (cols : Row) : Except PyError Table :=
  match cols with
  | date_cell :: names_part :: _ => processDate result (splitWS (pyLower date_cell)) names_part
  | _ => .ok result

/-- The rows of one table, in order, threading the mapping and
propagating a raised `ValueError`. -/
def processRows (result : Table) : List Row → Except PyError Table
  | [] => .ok result
  | r :: rest =>
    match processRow result r with
    | .error e => .error e
    | .ok result2 => processRows result2 rest

/-- All candidate tables, each with its header row skipped. -/
def parseTablesGo (result : Table) : List (List Row) → Except PyError Table
  | [] => .ok result
  | t :: ts =>
    match processRows result (t.drop 1) with
    | .error e => .error e
    | .ok r2 => parseTablesGo r2 ts

/-- `parse_tables` from `fetch.py`: the input is the list of candidate
(`wikitable`-classed) tables, each a list of rows of cell texts. -/
def parse_tables (tables : List (List Row)) : Except PyError Table :=
  parseTablesGo [] tables

/-! ## The service layer (`main.py`) -/

/-- The mutable state `refresh_namedays` touches: whether a KV store is
configured, the KV value, the JSON file, and the in-memory `NAMEDAYS`. -/
structure ServerState where
  hasKv : Bool
  kvStore : Table
  fileStore : Table
  namedays : Table
deriving DecidableEq, Repr

/-- The success payload of `/api/refresh`. -/
structure RefreshOk where
  total_dates : Nat
  total_names : Nat
deriving DecidableEq, Repr

/-- How `/api/refresh` can fail: an `HTTPException(code, detail)` or an
uncaught Python exception escaping `parse_tables`. -/
inductive RefreshErr
  | httpExc : Nat → String → RefreshErr
  | pyExc : PyError → RefreshErr
deriving DecidableEq, Repr

/-- `refresh_namedays` from `main.py` (lines 166–189): verify the API
key, extract, reject an empty mapping with a 500 before any write, else
write to the KV store or the file and swap the in-memory table.  The
fetched markup is passed in already parsed into candidate tables. -/
def refresh_namedays (apiKey x_api_key : String) (tables : List (List Row))
    (st : ServerState) : ServerState × Except RefreshErr RefreshOk :=
  if apiKey = "" then (st, .error (.httpExc 500 "API key not configured on server"))
  else if x_api_key ≠ apiKey then (st, .error (.httpExc 401 "Invalid API key"))
  else
    match parse_tables tables with
    | .error e => (st, .error (.pyExc e))
    | .ok data =>
      if data.isEmpty then (st, .error (.httpExc 500 "Failed to fetch data from Wikipedia"))
      else
        let st2 :=
          if st.hasKv then { st with kvStore := data, namedays := data }
          else { st with fileStore := data, namedays := data }
        (st2, .ok ⟨data.length, (data.map (fun p => p.2.length)).sum⟩)

/-- The response of `/api/date/{month}/{day}`. -/
structure DateResponse where
  date : String
  names : List String
  count : Nat
deriving DecidableEq, Repr

/-- Length of month `m` in the year 2000 (a leap year: February has 29
days), the validity test performed by `datetime(2000, month, day)`. -/
def daysInMonth2000 (m : Int) : Int :=
  if m = 2 then 29
  else if m = 4 ∨ m = 6 ∨ m = 9 ∨ m = 11 then 30
  else 31

/-- `get_date` from `main.py` (lines 91–113): range checks on month and
day, then `datetime(2000, month, day)` as a calendar-validity probe
(despite the comment in the source calling 2000 a non-leap year), then
the table lookup with `[]` as the default. -/
def get_date (table : Table) (month day : Int) : Except (Nat × String) DateResponse :=
  if month < 1 ∨ month > 12 then .error (400, "Month must be between 1 and 12")
  else if day < 1 ∨ day > 31 then .error (400, "Day must be between 1 and 31")
  else if day > daysInMonth2000 month then .error (400, "Invalid date")
  else
    let key := intFormat02 month ++ "-" ++ intFormat02 day
    let names := (lookupA table key).getD []
    .ok ⟨key, names, names.length⟩

/-! ## Spec-side and auxiliary predicates -/

/-- Modelled from the spec: the DateKey shape the spec claims for every
key — exactly `MM-DD` with a zero-padded two-digit month in `[01,12]`
and a two-digit day in `[01,31]`.  Used only to compare the spec's
stated invariant with what `parse_tables` produces. -/
def specDateKeyOk (k : String) : Bool :=
  match k.toList with
  | [m1, m2, '-', d1, d2] =>
    m1.isDigit && m2.isDigit && d1.isDigit && d2.isDigit &&
      (let m := 10 * (m1.toNat - 48) + (m2.toNat - 48)
       let d := 10 * (d1.toNat - 48) + (d2.toNat - 48)
       decide (1 ≤ m) && decide (m ≤ 12) && decide (1 ≤ d) && decide (d ≤ 31))
  | _ => false

/-- The shape every key recorded by `parse_tables` actually has: a month
code taken from `MONTH_MAP` joined by a dash to the `:02d`-formatted
parsed day integer (which is not constrained to `[01,31]`). -/
def keyShaped (k : String) : Prop :=
  ∃ mc d, mc ∈ MONTH_MAP.map Prod.snd ∧ k = mc ++ "-" ++ intFormat02 d

/-- A row on which `int(day)` cannot raise: either it is dropped before
the day token is parsed (too few cells, not exactly two date tokens,
unknown month), or its day token parses. -/
def rowSafe (cols : Row) : Bool :=
  match cols with
  | c0 :: _ :: _ =>
    match splitWS (pyLower c0) with
    | [day, mon] =>
      match alookup MONTH_MAP mon with
      | some _ => (pyInt day).isSome
      | none => true
    | _ => true
  | _ => true

/-! ## Helper lemmas: the output mapping -/

theorem lookupA_upsert (s : Table) (k : String) (v : List String) :
    lookupA (upsert s k v) k = some v := by
  induction s with
  | nil => simp [upsert, lookupA]
  | cons p rest ih =>
    obtain ⟨k', v'⟩ := p
    by_cases h : k' = k
    · simp [upsert, lookupA, h]
    · simp [upsert, lookupA, h, ih]

theorem mem_upsert {s : Table} {k : String} {v : List String} {p : String × List String}
    (h : p ∈ upsert s k v) : p.1 = k ∨ p ∈ s := by
  induction s with
  | nil =>
    simp only [upsert, List.mem_singleton] at h
    exact Or.inl (by rw [h])
  | cons q rest ih =>
    obtain ⟨k', v'⟩ := q
    simp only [upsert] at h
    by_cases hk : k' = k
    · rw [if_pos hk] at h
      rcases List.mem_cons.mp h with h1 | h1
      · exact Or.inl (by rw [h1])
      · exact Or.inr (List.mem_cons_of_mem _ h1)
    · rw [if_neg hk] at h
      rcases List.mem_cons.mp h with h1 | h1
      · exact Or.inr (by rw [h1]; exact List.mem_cons_self _ _)
      · rcases ih h1 with h2 | h2
        · exact Or.inl h2
        · exact Or.inr (List.mem_cons_of_mem _ h2)

theorem alookup_mem {α : Type} {l : List (String × α)} {x : String} {v : α}
    (h : alookup l x = some v) : v ∈ l.map Prod.snd := by
  induction l with
  | nil => simp [alookup] at h
  | cons q rest ih =>
    obtain ⟨k', v'⟩ := q
    simp only [alookup] at h
    by_cases hk : k' = x
    · rw [if_pos hk] at h
      obtain rfl : v' = v := Option.some.inj h
      simp
    · rw [if_neg hk] at h
      simp [ih h]

/-! ## Helper lemmas: parenthesis stripping -/

theorem hasParenPair_sub {l₁ l₂ : List Char} (h : List.Sublist l₁ l₂)
    (h2 : hasParenPair l₂ = false) : hasParenPair l₁ = false := by
  induction h with
  | slnil => exact h2
  | cons a _ ih =>
    simp only [hasParenPair, Bool.or_eq_false_iff] at h2
    exact ih h2.2
  | @cons₂ m₁ m₂ a hsub ih =>
    simp only [hasParenPair, Bool.or_eq_false_iff, Bool.and_eq_false_iff] at h2 ⊢
    refine ⟨?_, ih h2.2⟩
    rcases h2.1 with hc | hc
    · exact Or.inl hc
    · right
      simp only [decide_eq_false_iff_not] at hc ⊢
      exact fun hm => hc (hsub.subset hm)

theorem afterClose_length {r rem : List Char} (h : afterClose r = some rem) :
    rem.length < r.length := by
  induction r with
  | nil => simp [afterClose] at h
  | cons c rest ih =>
    simp only [afterClose] at h
    by_cases hc : c = ')'
    · rw [if_pos hc] at h
      cases Option.some.inj h
      simp only [List.length_cons]
      omega
    · rw [if_neg hc] at h
      have := ih h
      simp only [List.length_cons]
      omega

theorem afterClose_sublist {r rem : List Char} (h : afterClose r = some rem) :
    List.Sublist rem r := by
  induction r with
  | nil => simp [afterClose] at h
  | cons c rest ih =>
    simp only [afterClose] at h
    by_cases hc : c = ')'
    · rw [if_pos hc] at h
      obtain rfl : rest = rem := Option.some.inj h
      exact (List.Sublist.refl _).cons c
    · rw [if_neg hc] at h
      exact (ih h).cons c

theorem afterClose_none {r : List Char} (h : afterClose r = none) : ')' ∉ r := by
  induction r with
  | nil => simp
  | cons c rest ih =>
    simp only [afterClose] at h
    by_cases hc : c = ')'
    · rw [if_pos hc] at h
      simp at h
    · rw [if_neg hc] at h
      intro hmem
      rcases List.mem_cons.mp hmem with h1 | h1
      · exact hc h1.symm
      · exact ih h h1

theorem matchWsParen_sublist {l rem : List Char} (h : matchWsParen l = some rem) :
    List.Sublist rem l := by
  unfold matchWsParen at h
  split at h
  · rename_i rest heq
    have h1 := afterClose_sublist h
    have h2 : List.Sublist ('(' :: rest) l := by
      have h3 := List.dropWhile_sublist (l := l) isSpaceCh
      rwa [heq] at h3
    exact (h1.trans ((List.Sublist.refl rest).cons '(')).trans h2
  · simp at h

theorem matchWsParen_length {l rem : List Char} (h : matchWsParen l = some rem) :
    rem.length < l.length := by
  unfold matchWsParen at h
  split at h
  · rename_i rest heq
    have h1 := afterClose_length h
    have h2 := (List.dropWhile_sublist (l := l) isSpaceCh).length_le
    rw [heq] at h2
    simp only [List.length_cons] at h2
    omega
  · simp at h

theorem matchWsParen_none_open {rest : List Char} (h : matchWsParen ('(' :: rest) = none) :
    ')' ∉ rest := by
  have hd : ('(' :: rest).dropWhile isSpaceCh = '(' :: rest := by
    rw [List.dropWhile_cons]
    simp [isSpaceCh]
  unfold matchWsParen at h
  rw [hd] at h
  exact afterClose_none h

theorem reSubGo_succ_some {n : Nat} {c : Char} {rest rem : List Char}
    (h : matchWsParen (c :: rest) = some rem) :
    reSubGo (n + 1) (c :: rest) = reSubGo n rem := by
  simp [reSubGo, h]

theorem reSubGo_succ_none {n : Nat} {c : Char} {rest : List Char}
    (h : matchWsParen (c :: rest) = none) :
    reSubGo (n + 1) (c :: rest) = c :: reSubGo n rest := by
  simp [reSubGo, h]

theorem mem_reSubGo : ∀ (fuel : Nat) (l : List Char) (x : Char), x ∈ reSubGo fuel l → x ∈ l := by
  intro fuel
  induction fuel with
  | zero => intro l x h; exact h
  | succ n ih =>
    intro l x h
    cases l with
    | nil => simp [reSubGo] at h
    | cons c rest =>
      cases hm : matchWsParen (c :: rest) with
      | some rem =>
        rw [reSubGo_succ_some hm] at h
        exact (matchWsParen_sublist hm).subset (ih rem x h)
      | none =>
        rw [reSubGo_succ_none hm] at h
        rcases List.mem_cons.mp h with h1 | h1
        · exact h1 ▸ List.mem_cons_self c rest
        · exact List.mem_cons_of_mem c (ih rest x h1)

theorem hasParenPair_reSubGo : ∀ (fuel : Nat) (l : List Char), l.length ≤ fuel →
    hasParenPair (reSubGo fuel l) = false := by
  intro fuel
  induction fuel with
  | zero =>
    intro l h
    have h0 : l = [] := List.length_eq_zero.mp (Nat.le_zero.mp h)
    subst h0
    simp [reSubGo, hasParenPair]
  | succ n ih =>
    intro l h
    cases l with
    | nil => simp [reSubGo, hasParenPair]
    | cons c rest =>
      cases hm : matchWsParen (c :: rest) with
      | some rem =>
        rw [reSubGo_succ_some hm]
        have hlen := matchWsParen_length hm
        simp only [List.length_cons] at h hlen
        exact ih rem (by omega)
      | none =>
        rw [reSubGo_succ_none hm]
        simp only [List.length_cons] at h
        have hrest : hasParenPair (reSubGo n rest) = false := ih rest (by omega)
        simp only [hasParenPair, hrest, Bool.or_false]
        by_cases hc : c = '('
        · subst hc
          have hnp : ')' ∉ rest := matchWsParen_none_open hm
          have hnp2 : ')' ∉ reSubGo n rest := fun hx => hnp (mem_reSubGo n rest ')' hx)
          simp [hnp2]
        · simp [hc]

theorem pyStripL_sublist (l : List Char) : List.Sublist (pyStripL l) l := by
  unfold pyStripL
  have h1 : List.Sublist (l.dropWhile isSpaceCh) l := List.dropWhile_sublist _
  have h2 : List.Sublist ((l.dropWhile isSpaceCh).reverse.dropWhile isSpaceCh)
      (l.dropWhile isSpaceCh).reverse := List.dropWhile_sublist _
  have h3 := h2.reverse
  rw [List.reverse_reverse] at h3
  exact h3.trans h1

theorem junkNames_noParen {s name : String} (h : name ∈ junkNames s) :
    hasParenPairS name = false := by
  unfold junkNames at h
  rcases List.mem_filter.mp h with ⟨hmem, _⟩
  rcases List.mem_map.mp hmem with ⟨w, _, hw⟩
  rw [← hw]
  show hasParenPair (pyStripL (reSubParen w)) = false
  exact hasParenPair_sub (pyStripL_sublist _) (hasParenPair_reSubGo w.length w le_rfl)

/-! ## Helper lemmas: the row pipeline -/

theorem processDate_skip {result : Table} {parts : List String} {np : String}
    (h : parts.length ≠ 2) : processDate result parts np = .ok result := by
  rcases parts with _ | ⟨a, _ | ⟨b, _ | ⟨c, tl⟩⟩⟩
  · rfl
  · rfl
  · simp at h
  · rfl

theorem processDate_noMonth {result : Table} {day mon np : String}
    (h : alookup MONTH_MAP mon = none) : processDate result [day, mon] np = .ok result := by
  simp [processDate, h]

theorem processDate_badDay {result : Table} {day mon mc np : String}
    (h : alookup MONTH_MAP mon = some mc) (h2 : pyInt day = none) :
    processDate result [day, mon] np = .error .valueError := by
  simp [processDate, h, h2]

theorem processDate_found {result : Table} {day mon mc np : String} {d : Int}
    (h : alookup MONTH_MAP mon = some mc) (h2 : pyInt day = some d) :
    processDate result [day, mon] np =
      .ok (recordNames result (mc ++ "-" ++ intFormat02 d) np) := by
  simp [processDate, h, h2]

theorem processRow_cons {result : Table} {c0 c1 : String} {cs : List String} :
    processRow result (c0 :: c1 :: cs) = processDate result (splitWS (pyLower c0)) c1 := rfl

theorem processRows_cons_ok {s s2 : Table} {r : Row} {rest : List Row}
    (h : processRow s r = .ok s2) : processRows s (r :: rest) = processRows s2 rest := by
  simp [processRows, h]

/-- Full case analysis of one row: it is skipped, records one key built
from a recognized month code and a parsed day, or raises `ValueError`. -/
theorem processRow_cases (s : Table) (cols : Row) :
    processRow s cols = .ok s ∨
    (∃ c0 c1 cs day mon mc d, cols = c0 :: c1 :: cs ∧ splitWS (pyLower c0) = [day, mon] ∧
      alookup MONTH_MAP mon = some mc ∧ pyInt day = some d ∧
      processRow s cols = .ok (recordNames s (mc ++ "-" ++ intFormat02 d) c1)) ∨
    (∃ c0 c1 cs day mon mc, cols = c0 :: c1 :: cs ∧ splitWS (pyLower c0) = [day, mon] ∧
      alookup MONTH_MAP mon = some mc ∧ pyInt day = none ∧
      processRow s cols = .error .valueError) := by
  rcases cols with _ | ⟨c0, _ | ⟨c1, cs⟩⟩
  · exact Or.inl rfl
  · exact Or.inl rfl
  · rw [processRow_cons]
    rcases hsp : splitWS (pyLower c0) with _ | ⟨a, _ | ⟨b, _ | ⟨c, tl⟩⟩⟩
    · exact Or.inl (processDate_skip (by simp))
    · exact Or.inl (processDate_skip (by simp))
    · cases hal : alookup MONTH_MAP b with
      | none => exact Or.inl (processDate_noMonth hal)
      | some mc =>
        cases hpi : pyInt a with
        | none =>
          exact Or.inr (Or.inr ⟨c0, c1, cs, a, b, mc, rfl, hsp, hal, hpi,
            processDate_badDay hal hpi⟩)
        | some d =>
          exact Or.inr (Or.inl ⟨c0, c1, cs, a, b, mc, d, rfl, hsp, hal, hpi,
            processDate_found hal hpi⟩)
    · exact Or.inl (processDate_skip (by simp))

theorem parseTablesGo_cons_ok {s s2 : Table} {t : List Row} {ts : List (List Row)}
    (h : processRows s (t.drop 1) = .ok s2) :
    parseTablesGo s (t :: ts) = parseTablesGo s2 ts := by
  have h2 : processRows s t.tail = .ok s2 := by rwa [List.drop_one] at h
  simp [parseTablesGo, h2]

/-! ## Helper lemmas: no raise on safe rows -/

theorem processRow_safe (s : Table) (cols : Row) (h : rowSafe cols = true) :
    ∃ s2, processRow s cols = .ok s2 := by
  rcases processRow_cases s cols with h1 | h1 | h1
  · exact ⟨s, h1⟩
  · obtain ⟨c0, c1, cs, day, mon, mc, d, _, _, _, _, he⟩ := h1
    exact ⟨_, he⟩
  · obtain ⟨c0, c1, cs, day, mon, mc, hc, hsp, hal, hpi, _⟩ := h1
    subst hc
    simp only [rowSafe, hsp, hal, hpi, Option.isSome_none] at h
    exact Bool.noConfusion h

theorem processRows_safe : ∀ (rows : List Row) (s : Table),
    (∀ cols ∈ rows, rowSafe cols = true) → ∃ s2, processRows s rows = .ok s2 := by
  intro rows
  induction rows with
  | nil => intro s _; exact ⟨s, rfl⟩
  | cons r rest ih =>
    intro s h
    obtain ⟨s2, h2⟩ := processRow_safe s r (h r (List.mem_cons_self r rest))
    rw [processRows_cons_ok h2]
    exact ih s2 (fun c hc => h c (List.mem_cons_of_mem r hc))

theorem parseTablesGo_safe : ∀ (ts : List (List Row)) (s : Table),
    (∀ t ∈ ts, ∀ cols ∈ t.drop 1, rowSafe cols = true) →
    ∃ m, parseTablesGo s ts = .ok m := by
  intro ts
  induction ts with
  | nil => intro s _; exact ⟨s, rfl⟩
  | cons t rest ih =>
    intro s h
    obtain ⟨s2, h2⟩ := processRows_safe (t.drop 1) s (h t (List.mem_cons_self t rest))
    rw [parseTablesGo_cons_ok h2]
    exact ih s2 (fun u hu => h u (List.mem_cons_of_mem t hu))

/-! ## Helper lemmas: shape of recorded keys -/

theorem recordNames_shaped {s : Table} {k np : String}
    (hs : ∀ p ∈ s, keyShaped p.1) (hk : keyShaped k) :
    ∀ p ∈ recordNames s k np, keyShaped p.1 := by
  intro p hp
  have hcase : p.1 = k ∨ p ∈ s := by
    unfold recordNames at hp
    split at hp
    · exact mem_upsert hp
    · split at hp
      · exact mem_upsert hp
      · exact mem_upsert hp
  rcases hcase with h1 | h1
  · rw [h1]; exact hk
  · exact hs p h1

theorem processRow_shaped {s s2 : Table} {cols : Row}
    (hs : ∀ p ∈ s, keyShaped p.1) (h : processRow s cols = .ok s2) :
    ∀ p ∈ s2, keyShaped p.1 := by
  rcases processRow_cases s cols with h1 | h1 | h1
  · rw [h1] at h
    obtain rfl : s = s2 := Except.ok.inj h
    exact hs
  · obtain ⟨c0, c1, cs, day, mon, mc, d, _, _, hal, _, he⟩ := h1
    rw [he] at h
    obtain rfl := Except.ok.inj h
    exact recordNames_shaped hs ⟨mc, d, alookup_mem hal, rfl⟩
  · obtain ⟨_, _, _, _, _, _, _, _, _, _, he⟩ := h1
    rw [he] at h
    cases h

theorem processRows_shaped : ∀ (rows : List Row) (s s2 : Table),
    (∀ p ∈ s, keyShaped p.1) → processRows s rows = .ok s2 → ∀ p ∈ s2, keyShaped p.1 := by
  intro rows
  induction rows with
  | nil =>
    intro s s2 hs h
    obtain rfl : s = s2 := Except.ok.inj h
    exact hs
  | cons r rest ih =>
    intro s s2 hs h
    simp only [processRows] at h
    cases hr : processRow s r with
    | error e => rw [hr] at h; cases h
    | ok s3 =>
      rw [hr] at h
      exact ih s3 s2 (processRow_shaped hs hr) h

theorem parseTablesGo_shaped : ∀ (ts : List (List Row)) (s m : Table),
    (∀ p ∈ s, keyShaped p.1) → parseTablesGo s ts = .ok m → ∀ p ∈ m, keyShaped p.1 := by
  intro ts
  induction ts with
  | nil =>
    intro s m hs h
    obtain rfl : s = m := Except.ok.inj h
    exact hs
  | cons t rest ih =>
    intro s m hs h
    simp only [parseTablesGo] at h
    cases hr : processRows s (t.drop 1) with
    | error e => rw [hr] at h; cases h
    | ok s3 =>
      rw [hr] at h
      exact ih s3 m (processRows_shaped (t.drop 1) s s3 hs hr) h

theorem parse_tables_shaped {tbls : List (List Row)} {m : Table}
    (h : parse_tables tbls = .ok m) : ∀ p ∈ m, keyShaped p.1 :=
  parseTablesGo_shaped tbls [] m (by intro p hp; cases hp) h

/-! ## Claims -/

/-- C1, counterexample: on a table whose single data row pairs a
recognized month token with a non-numeric day token, `parse_tables`
raises `ValueError` (from `int(day)`) instead of skipping the row and
returning a mapping, so the extractor is not error-free as claimed. -/
theorem C1_extractor_raises_cex :
    parse_tables [[["Datum", "Namn"], ["x januari", "Foo"]]] = .error .valueError := by
  decide

/-- C1, amended: the extractor silently skips every row it cannot
interpret due to a wrong cell count, a date cell without exactly two
whitespace tokens, or an unknown month token, and extraction of the
remaining rows completes and returns a mapping — provided no processed
row pairs a recognized month token with a day token that fails integer
parsing (such a row raises `ValueError` and aborts the whole run). -/
theorem C1_extractor_total_on_safe_rows (tbls : List (List Row))
    (h : ∀ t ∈ tbls, ∀ cols ∈ t.drop 1, rowSafe cols = true) :
    ∃ m, parse_tables tbls = .ok m :=
  parseTablesGo_safe tbls [] h

/-- C1, witness: a run over malformed but safe rows (a single cell,
three date tokens, an unknown month token) completes with a mapping. -/
theorem C1_extractor_total_on_safe_rows_witness :
    ∃ m, parse_tables
        [[["Datum", "Namn"], ["bara en cell"], ["1 2 3", "N"], ["5 blurg", "N"],
          ["7 Juli", "Kjell och Selma"]]] = .ok m :=
  C1_extractor_total_on_safe_rows _ (by decide)

/-- C2, counterexample: a row with day token `99` and a recognized month
is accepted and recorded under the key `01-99`, whose day part lies
outside `[01,31]`, so the claimed DateKey invariant fails. -/
theorem C2_datekey_invariant_cex :
    parse_tables [[["Datum", "Namn"], ["99 januari", "Foo"]]] = .ok [("01-99", ["Foo"])] ∧
    specDateKeyOk "01-99" = false :=
  ⟨by decide, by decide⟩

/-- C2, amended: every key of a mapping returned by `parse_tables` is a
two-digit month code from `MONTH_MAP` (hence in `[01,12]`), a dash, and
the `:02d`-formatted parsed day integer — the day part is not
constrained to `[01,31]`. -/
theorem C2_datekey_shape {tbls : List (List Row)} {m : Table}
    (h : parse_tables tbls = .ok m) : ∀ p ∈ m, keyShaped p.1 :=
  parse_tables_shaped h

/-- C2, witness: the key recorded for the row `"1 Januari"` has the
month-code-dash-formatted-day shape. -/
theorem C2_datekey_shape_witness : keyShaped "01-01" :=
  @C2_datekey_shape [[["Datum", "Namn"], ["1 Januari", "Svea"]]]
    [("01-01", [])] (by decide) ("01-01", []) (by decide)

/-- C3: a row whose date cell splits into exactly two tokens, whose
lowercased month token is in `MONTH_MAP`, and whose day token parses to
an integer in 1–31, records its names under the key composed of the
month code, a dash, and the zero-padded two-digit day; and any date
cell with the same month token and an equal parsed day value (leading
zero or not) is processed identically. -/
theorem C3_wellformed_row_key (s : Table) (dc nc : String) (rest : List String)
    (day mon mc : String) (d : Int)
    (h1 : splitWS (pyLower dc) = [day, mon])
    (h2 : alookup MONTH_MAP mon = some mc)
    (h3 : pyInt day = some d) (h4 : 1 ≤ d) (h5 : d ≤ 31) :
    processRow s (dc :: nc :: rest) =
      .ok (recordNames s (mc ++ "-" ++ intFormat02 d) nc) ∧
    intFormat02 d = (if d < 10 then "0" ++ toString d else toString d) ∧
    (∀ dc2 day2, splitWS (pyLower dc2) = [day2, mon] → pyInt day2 = some d →
      processRow s (dc2 :: nc :: rest) = processRow s (dc :: nc :: rest)) := by
  refine ⟨?_, ?_, ?_⟩
  · rw [processRow_cons, h1]
    exact processDate_found h2 h3
  · unfold intFormat02
    by_cases hd : d < 10
    · rw [if_pos ⟨by omega, hd⟩, if_pos hd]
    · rw [if_neg (fun hc => hd hc.2), if_neg hd]
  · intro dc2 day2 g1 g2
    rw [processRow_cons, g1, processRow_cons, h1,
      processDate_found h2 g2, processDate_found h2 h3]

/-- C3, witness: the date cells `"7 Mars"` and `"07 Mars"` both record
under `03-07`. -/
theorem C3_wellformed_row_key_witness :
    processRow [] ["7 Mars", "Ottilia"] =
      .ok (recordNames [] ("03" ++ "-" ++ intFormat02 7) "Ottilia") ∧
    processRow [] ["07 Mars", "Ottilia"] = processRow [] ["7 Mars", "Ottilia"] :=
  ⟨(C3_wellformed_row_key [] "7 Mars" "Ottilia" [] "7" "mars" "03" 7
      (by decide) (by decide) (by decide) (by decide) (by decide)).1,
   (C3_wellformed_row_key [] "7 Mars" "Ottilia" [] "7" "mars" "03" 7
      (by decide) (by decide) (by decide) (by decide) (by decide)).2.2
     "07 Mars" "07" (by decide) (by decide)⟩

/-- C4: a row with fewer than two cells, or whose date cell does not
split into exactly two whitespace tokens, or whose month token is not in
`MONTH_MAP`, contributes nothing — from any state, processing the
remaining rows is the same as if the row were absent. -/
theorem C4_malformed_row_skipped (s : Table) (rest : List Row) (cols : Row) :
    (cols.length < 2 → processRows s (cols :: rest) = processRows s rest) ∧
    (∀ c0 c1 cs, cols = c0 :: c1 :: cs → (splitWS (pyLower c0)).length ≠ 2 →
      processRows s (cols :: rest) = processRows s rest) ∧
    (∀ c0 c1 cs day mon, cols = c0 :: c1 :: cs → splitWS (pyLower c0) = [day, mon] →
      alookup MONTH_MAP mon = none →
      processRows s (cols :: rest) = processRows s rest) := by
  refine ⟨?_, ?_, ?_⟩
  · intro h
    rcases cols with _ | ⟨c0, _ | ⟨c1, cs⟩⟩
    · exact processRows_cons_ok rfl
    · exact processRows_cons_ok rfl
    · simp only [List.length_cons] at h
      omega
  · intro c0 c1 cs hc h
    subst hc
    refine processRows_cons_ok ?_
    rw [processRow_cons]
    exact processDate_skip h
  · intro c0 c1 cs day mon hc hsp hal
    subst hc
    refine processRows_cons_ok ?_
    rw [processRow_cons, hsp]
    exact processDate_noMonth hal

/-- C4, witness: a one-cell row, a three-token date cell, and an unknown
month token each leave the run unchanged. -/
theorem C4_malformed_row_skipped_witness :
    (processRows [] [["ensam cell"]] = processRows [] []) ∧
    (processRows [] [["1 2 3", "Namn"]] = processRows [] []) ∧
    (processRows [] [["5 blurg", "Namn"]] = processRows [] []) :=
  ⟨(C4_malformed_row_skipped [] [] ["ensam cell"]).1 (by decide),
   (C4_malformed_row_skipped [] [] ["1 2 3", "Namn"]).2.1 "1 2 3" "Namn" []
     rfl (by decide),
   (C4_malformed_row_skipped [] [] ["5 blurg", "Namn"]).2.2 "5 blurg" "Namn" [] "5" "blurg"
     rfl (by decide) (by decide)⟩

/-- C5: when the composed key is in `EMPTY_DATES`, the row records the
empty name list whatever the names cell holds; this branch is tested
before the `DATES_WITH_JUNK` branch, so no assumption about that set is
needed. -/
theorem C5_force_empty (s : Table) (dc nc : String) (rest : List String)
    (day mon mc : String) (d : Int)
    (h1 : splitWS (pyLower dc) = [day, mon])
    (h2 : alookup MONTH_MAP mon = some mc)
    (h3 : pyInt day = some d)
    (h4 : EMPTY_DATES.contains (mc ++ "-" ++ intFormat02 d) = true) :
    processRow s (dc :: nc :: rest) = .ok (upsert s (mc ++ "-" ++ intFormat02 d) []) ∧
    lookupA (upsert s (mc ++ "-" ++ intFormat02 d) []) (mc ++ "-" ++ intFormat02 d) =
      some [] := by
  refine ⟨?_, lookupA_upsert _ _ _⟩
  rw [processRow_cons, h1, processDate_found h2 h3]
  unfold recordNames
  rw [if_pos h4]

/-- C5, witness: the row `"1 Januari" / "Svea"` composes `01-01`, which
is in `EMPTY_DATES`, and records the empty list though the names cell
has text. -/
theorem C5_force_empty_witness :
    processRow [] ["1 Januari", "Svea"] = .ok (upsert [] ("01" ++ "-" ++ intFormat02 1) []) ∧
    lookupA (upsert [] ("01" ++ "-" ++ intFormat02 1) []) ("01" ++ "-" ++ intFormat02 1) =
      some [] :=
  C5_force_empty [] "1 Januari" "Svea" [] "1" "januari" "01" 1
    (by decide) (by decide) (by decide) (by decide)

/-- C6: when the composed key is in `DATES_WITH_JUNK` and not in
`EMPTY_DATES`, the row records the conjunction-normalized, comma-split,
parenthesis-stripped, trimmed, non-empty fragments; no recorded name
contains a parenthesized substring, and `"Mariana (Valborg)"` yields
`["Mariana"]`. -/
theorem C6_junk_strip (s : Table) (dc nc : String) (rest : List String)
    (day mon mc : String) (d : Int)
    (h1 : splitWS (pyLower dc) = [day, mon])
    (h2 : alookup MONTH_MAP mon = some mc)
    (h3 : pyInt day = some d)
    (h4 : EMPTY_DATES.contains (mc ++ "-" ++ intFormat02 d) = false)
    (h5 : DATES_WITH_JUNK.contains (mc ++ "-" ++ intFormat02 d) = true) :
    processRow s (dc :: nc :: rest) =
      .ok (upsert s (mc ++ "-" ++ intFormat02 d) (junkNames nc)) ∧
    (∀ name ∈ junkNames nc, hasParenPairS name = false) ∧
    junkNames "Mariana (Valborg)" = ["Mariana"] := by
  refine ⟨?_, fun name hn => junkNames_noParen hn, by decide⟩
  rw [processRow_cons, h1, processDate_found h2 h3]
  unfold recordNames
  rw [if_neg (by simpa using h4), if_pos h5]

/-- C6, witness: the row `"30 April" / "Mariana (Valborg)"` composes
`04-30`, a strip-annotations key, and records `["Mariana"]`, which holds
no parenthesized substring. -/
theorem C6_junk_strip_witness :
    processRow [] ["30 April", "Mariana (Valborg)"] =
      .ok (upsert [] ("04" ++ "-" ++ intFormat02 30) (junkNames "Mariana (Valborg)")) ∧
    hasParenPairS "Mariana" = false ∧
    junkNames "Mariana (Valborg)" = ["Mariana"] :=
  have h := C6_junk_strip [] "30 April" "Mariana (Valborg)" [] "30" "april" "04" 30
    (by decide) (by decide) (by decide) (by decide) (by decide)
  ⟨h.1, h.2.1 "Mariana" (by decide), h.2.2⟩

/-- C7: when the composed key is in neither override set, the row
records the conjunction-normalized, comma-split, trimmed, non-empty
fragments with no parenthetical stripping; `"Erik och Erika"` yields
`["Erik", "Erika"]` and `"Kristoffer, Christoffer"` yields
`["Kristoffer", "Christoffer"]`. -/
theorem C7_default_path (s : Table) (dc nc : String) (rest : List String)
    (day mon mc : String) (d : Int)
    (h1 : splitWS (pyLower dc) = [day, mon])
    (h2 : alookup MONTH_MAP mon = some mc)
    (h3 : pyInt day = some d)
    (h4 : EMPTY_DATES.contains (mc ++ "-" ++ intFormat02 d) = false)
    (h5 : DATES_WITH_JUNK.contains (mc ++ "-" ++ intFormat02 d) = false) :
    processRow s (dc :: nc :: rest) =
      .ok (upsert s (mc ++ "-" ++ intFormat02 d) (defaultNames nc)) ∧
    defaultNames "Erik och Erika" = ["Erik", "Erika"] ∧
    defaultNames "Kristoffer, Christoffer" = ["Kristoffer", "Christoffer"] := by
  refine ⟨?_, by decide, by decide⟩
  rw [processRow_cons, h1, processDate_found h2 h3]
  unfold recordNames
  rw [if_neg (by simpa using h4), if_neg (by simpa using h5)]

/-- C7, witness: the row `"15 Mars" / "Kristoffer, Christoffer"` takes
the default path and records both names. -/
theorem C7_default_path_witness :
    processRow [] ["15 Mars", "Kristoffer, Christoffer"] =
      .ok (upsert [] ("03" ++ "-" ++ intFormat02 15) (defaultNames "Kristoffer, Christoffer")) ∧
    defaultNames "Erik och Erika" = ["Erik", "Erika"] ∧
    defaultNames "Kristoffer, Christoffer" = ["Kristoffer", "Christoffer"] :=
  C7_default_path [] "15 Mars" "Kristoffer, Christoffer" [] "15" "mars" "03" 15
    (by decide) (by decide) (by decide) (by decide) (by decide)

/-- C8: with the API key configured and matching, if extraction yields
an empty mapping then `refresh_namedays` fails with the 500 error and
returns its state unchanged — neither store is written and the
in-memory table keeps its prior value. -/
theorem C8_empty_extraction_fatal (apiKey x : String) (tbls : List (List Row))
    (st : ServerState) (h1 : apiKey ≠ "") (h2 : x = apiKey)
    (h3 : parse_tables tbls = .ok []) :
    refresh_namedays apiKey x tbls st =
      (st, .error (.httpExc 500 "Failed to fetch data from Wikipedia")) := by
  unfold refresh_namedays
  rw [if_neg h1, if_neg (by simp [h2]), h3]
  rfl

/-- C8, witness: refreshing from markup with no tables leaves a prior
table in place and reports the 500 error. -/
theorem C8_empty_extraction_fatal_witness :
    refresh_namedays "hemlig" "hemlig" [] ⟨false, [], [], [("01-01", ["Svea"])]⟩ =
      (⟨false, [], [], [("01-01", ["Svea"])]⟩,
        .error (.httpExc 500 "Failed to fetch data from Wikipedia")) :=
  C8_empty_extraction_fatal "hemlig" "hemlig" [] ⟨false, [], [], [("01-01", ["Svea"])]⟩
    (by decide) rfl (by decide)

/-- C9: extraction is deterministic and stateless (a pure function of
the markup), recording a key overwrites any earlier value for it, and
end to end a later row for the same date key wins. -/
theorem C9_deterministic_last_write_wins :
    (∀ tbls : List (List Row), parse_tables tbls = parse_tables tbls) ∧
    (∀ (s : Table) (k : String) (v : List String), lookupA (upsert s k v) k = some v) ∧
    parse_tables
        [[["Datum", "Namn"], ["15 mars", "Kristoffer, Christoffer"], ["15 mars", "Adrian"]]] =
      .ok [("03-15", ["Adrian"])] :=
  ⟨fun _ => rfl, lookupA_upsert, by decide⟩

/-- C10: `get_date` accepts month 2, day 29 — `datetime(2000, 2, 29)`
is valid because 2000 is a leap year, despite the source comment calling
it a non-leap year — and returns the stored entry for key `02-29`,
while February 30 and April 31 are rejected with 400 "Invalid date". -/
theorem C10_leap_day_lookup (t : Table) :
    get_date t 2 29 =
      .ok ⟨"02-29", (lookupA t "02-29").getD [], ((lookupA t "02-29").getD []).length⟩ ∧
    get_date t 2 30 = .error (400, "Invalid date") ∧
    get_date t 4 31 = .error (400, "Invalid date") := by
  have hk : intFormat02 (2 : Int) ++ "-" ++ intFormat02 (29 : Int) = "02-29" := by decide
  refine ⟨?_, ?_, ?_⟩
  · unfold get_date
    rw [if_neg (by norm_num), if_neg (by norm_num),
      if_neg (by norm_num [daysInMonth2000]), hk]
  · unfold get_date
    rw [if_neg (by norm_num), if_neg (by norm_num), if_pos (by norm_num [daysInMonth2000])]
  · unfold get_date
    rw [if_neg (by norm_num), if_neg (by norm_num), if_pos (by norm_num [daysInMonth2000])]

